import Mathlib

/-!
# Verification of the io-form form-state core (`src/index.ts`)

Shallow embedding of the single module of the repository: the `FormBase`
class, its concrete boolean-error variant `Form`, and the exported factory
`Form.build`.

## Modelling conventions

* A JavaScript object is modelled as `Obj α`: an association list of
  string keys to values, in property-insertion order.  A real JavaScript
  object always has pairwise-distinct keys; the type is wider, so theorems
  that depend on key uniqueness take it as an explicit hypothesis.
* A runtime argument that the code inspects with `_isInvalidParam`
  (i.e. one of `values`, `fns`, or the partial passed to `set`/`next`) is
  modelled as `JSParam α`: it may be `null`, `undefined`, an array, an
  object, or a non-object primitive.  `JSParam.prim` stands for a
  primitive value WITHOUT own enumerable string-keyed properties — a
  number or a boolean: it is not `null`/`undefined` and not an array, so
  it passes the `_isInvalidParam` check, and `Object.keys`, property
  reads, and spreading observe nothing on it.  A string primitive also
  passes the check but DOES expose own properties (its characters at the
  decimal indices, plus the non-enumerable `length`), and in the `fns`
  position those properties are truthy non-callables that make the
  validation pass throw a `TypeError`; that untyped path is modelled
  separately by `RawFns` / `rawFnsAt` / `validateRaw` below.
* The source constructor declares `fns = {}` as a default parameter
  (likewise `dirty = false`, `touched = false`).  A JavaScript default
  parameter replaces an omitted OR explicitly-`undefined` argument with
  the default before the body (and hence before the `_isInvalidParam`
  check) runs, so `Form(values, undefined)` succeeds with `fns = {}`;
  only `null` and arrays reach the check and throw.  `Form.build` models
  this substitution; `dirty`/`touched` are plain `Bool`s passed
  explicitly.
* Throwing is modelled by `Except String` for the constructor (the thrown
  message is the payload) and, for the mutating method `set`, by returning
  the receiver's post-call state together with an optional thrown message,
  so that the receiver's state on failure is explicit.
* The sole shipped error-representation variant has `R = boolean`
  (`class Form extends FormBase<V, boolean>`); the embedding fixes
  `R = Bool` accordingly, staying generic over the field-value type `α`.
-/

namespace IoForm

/-- A JavaScript object: string-keyed association list in property order.
A genuine JS object has pairwise-distinct keys (`(Obj.keys o).Nodup`). -/
abbrev Obj (α : Type) : Type := List (String × α)

/-- `Object.keys o`: the keys of `o` in property order. -/
def Obj.keys {α : Type} (o : Obj α) : List String :=
  o.map Prod.fst

/-- Property read `o[k]`: the value at the key `k`, `none` for a missing
key (JavaScript `undefined`). -/
def Obj.lookup {α : Type} : Obj α → String → Option α
  | [], _ => none
  | q :: rest, k => if q.1 = k then some q.2 else Obj.lookup rest k

/-- The semantics of adding the property `k : v` to an object literal
(`{...o, [k]: v}` and each step of a spread): when `k` is already a key,
its value is overwritten in place (position kept); otherwise the property
is appended at the end. -/
def Obj.set {α : Type} (o : Obj α) (k : String) (v : α) : Obj α :=
  if k ∈ Obj.keys o then o.map (fun q => if q.1 = k then (k, v) else q)
  else o ++ [(k, v)]

/-- Spreading the properties of `o` (in order) into the object literal
being built from `acc`: `{...acc, ...o}` when `acc` collects what was
already spread. -/
def Obj.spreadInto {α : Type} (acc : Obj α) (o : Obj α) : Obj α :=
  o.foldl (fun a q => Obj.set a q.1 q.2) acc

/-- Last-occurrence lookup: the value the key `k` ends up with after all
entries of `o` have been spread, `none` when `k` never occurs. -/
def Obj.lookupLast {α : Type} : Obj α → String → Option α
  | [], _ => none
  | q :: rest, k =>
    match Obj.lookupLast rest k with
    | some v => some v
    | none => if q.1 = k then some q.2 else none

/-- First-defined choice on `Option`, used to state spread lemmas. -/
def oOr {α : Type} : Option α → Option α → Option α
  | some v, _ => some v
  | none, b => b

/-- The object-literal spread `{...a, ...b}`. -/
def jsSpread {α : Type} (a b : Obj α) : Obj α :=
  Obj.spreadInto (Obj.spreadInto [] a) b

/-- A JavaScript runtime value in an argument position that the source
checks with `_isInvalidParam`.  `prim` is a non-object primitive with no
own enumerable string-keyed properties — a number or a boolean.  (A
string primitive also passes the `_isInvalidParam` check but has index
properties; it is modelled by `RawFns.str` where that matters — see the
module docstring.) -/
inductive JSParam (α : Type) : Type where
  | null : JSParam α
  | undef : JSParam α
  | arr (elems : List α) : JSParam α
  | obj (o : Obj α) : JSParam α
  | prim : JSParam α

/-- The own enumerable string-keyed properties of a parameter, i.e. what
`Object.keys` / property reads / spreading observe on it: an object
contributes its entries, an array its index-keyed elements, and
`null`/`undefined`/number-or-boolean primitives contribute nothing. -/
def JSParam.props {α : Type} : JSParam α → Obj α
  | .obj o => o
  | .arr l => l.enum.map (fun q => (toString q.1, q.2))
  | _ => []

/-- `FormBase._isInvalidParam`:
`variable === null || variable === undefined || Array.isArray(variable)`. -/
def isInvalidParam {α : Type} : JSParam α → Bool
  | .null => true
  | .undef => true
  | .arr _ => true
  | _ => false

/-- Result record of `validate` (`ValidationResult<V, R>` at `R = boolean`). -/
structure ValidationResult : Type where
  errors : Obj Bool
  invalid : Bool
deriving DecidableEq

/-- The per-field computation inside `Form.validate`'s reduce:
`const value = values[key]; const result = fns[key] ? fns[key]?.some((fn) => fn(value)) : false`.
A present-but-empty validator list is truthy in JavaScript, so it takes the
`some`-branch and yields `false` (as `[].some` does, calling nothing).
When `key` has a nonempty validator list but no value, JavaScript would
apply the validators to `undefined`; that never happens at the class's own
call sites (which always pass `keys = Object.keys(values)`) and is
modelled as `false`. -/
def fieldResult {α : Type} (values : Obj α) (fns : Obj (List (α → Bool))) (key : String) : Bool :=
  match Obj.lookup fns key with
  | some l =>
    match Obj.lookup values key with
    | some value => l.any (fun fn => fn value)
    | none => false
  | none => false

/-- `Form.validate(keys, values, fns)`: builds the `errors` object by a
reduce over `keys` (`{...acc, [key]: result}`) and computes
`invalid = keys.some((key) => errors[key])`, where reading a missing key
yields `undefined`, which is falsy (`Option.getD false`).
A pure function of its three inputs: it never mutates `values` or `fns`. -/
def validate {α : Type} (keys : List String) (values : Obj α)
    (fns : Obj (List (α → Bool))) : ValidationResult :=
  let errors := keys.foldl (fun acc key => Obj.set acc key (fieldResult values fns key)) []
  { errors := errors
    invalid := keys.any (fun key => (Obj.lookup errors key).getD false) }

/-- The state of a `Form` instance (the `Data<V, R>` fields at `R = boolean`). -/
structure Form (α : Type) : Type where
  values : Obj α
  fns : Obj (List (α → Bool))
  dirty : Bool
  touched : Bool
  errors : Obj Bool
  invalid : Bool

/-- `FormBase._markAsDirty`. -/
def markAsDirty {α : Type} (f : Form α) : Form α :=
  { f with dirty := true }

/-- `FormBase._markAsTouched`. -/
def markAsTouched {α : Type} (f : Form α) : Form α :=
  { f with touched := true }

/-- `FormBase._setValues`: `this.values = { ...this.values, ...values }`,
where the incoming argument may be any runtime value (spreading
`null`/`undefined` contributes nothing, spreading an array contributes its
index properties). -/
def setValuesStep {α : Type} (f : Form α) (p : JSParam α) : Form α :=
  { f with values := jsSpread f.values (JSParam.props p) }

/-- `FormBase._setValidation`: re-runs `validate` on
`Object.keys(this.values)`, `this.values`, `this.fns` and overwrites
`errors`/`invalid`. -/
def setValidation {α : Type} (f : Form α) : Form α :=
  let r := validate (Obj.keys f.values) f.values f.fns
  { f with errors := r.errors, invalid := r.invalid }

/-- `FormBase._preventSubmit`: `if (e) { e.preventDefault() }`.  The event
is modelled by its call counter: a supplied event object is always truthy,
so its hook is invoked exactly once. -/
def preventSubmit : Option Nat → Option Nat
  | some c => some (c + 1)
  | none => none

/-- The constructor body after the two argument checks have passed: store
the four fields (`errors`/`invalid` are declared but unassigned before
`_setValidation` runs; the placeholders are immediately overwritten) and
run `_setValidation`. -/
def initState {α : Type} (values : Obj α) (fns : Obj (List (α → Bool)))
    (dirty touched : Bool) : Form α :=
  setValidation
    { values := values, fns := fns, dirty := dirty, touched := touched
      errors := [], invalid := false }

/-- `Form.build` / the `FormBase` constructor,
`constructor(values, fns = {}, dirty = false, touched = false)`:
the default parameter `fns = {}` first replaces an omitted or
explicitly-`undefined` `fns` argument with the empty object — this
happens at parameter binding, before the constructor body runs — then
the body checks `values`, then `fns`, with `_isInvalidParam`, throwing
the corresponding fixed message; on success it stores the arguments
(observed through their own enumerable properties, `JSParam.props`) and
validates.  `values` has no default, so an `undefined` `values` reaches
its check and throws.  `dirty`/`touched` default to `false` in the
source and are passed explicitly here. -/
def Form.build {α : Type} (vp : JSParam α) (fp : JSParam (List (α → Bool)))
    (dirty touched : Bool) : Except String (Form α) :=
  let fns := match fp with
    | JSParam.undef => JSParam.obj []
    | _ => fp
  if isInvalidParam vp then Except.error "values parameter must be an object"
  else if isInvalidParam fns then Except.error "fns parameter must be an object"
  else Except.ok (initState (JSParam.props vp) (JSParam.props fns) dirty touched)

/-- `Form.next(values)`: `this._markAsTouched(); this._setValues(values);
return new Form(this.values, this.fns, this.dirty, this.touched)`.
There is no argument check in `next`.  Returns the receiver's post-call
state and the constructor's outcome for the new instance (the constructor
is handed the receiver's `values`/`fns`, genuine objects). -/
def Form.next {α : Type} (f : Form α) (p : JSParam α) :
    Form α × Except String (Form α) :=
  let f1 := markAsTouched f
  let f2 := setValuesStep f1 p
  (f2, Form.build (JSParam.obj f2.values) (JSParam.obj f2.fns) f2.dirty f2.touched)

/-- `Form.set(values)`: check the argument first (throwing
`"values parameter must be an object"` before any state is touched), then
`_markAsTouched`, `_setValues`, `_setValidation`.  Returns the receiver's
post-call state and the thrown message, if any. -/
def Form.set {α : Type} (f : Form α) (p : JSParam α) : Form α × Option String :=
  if isInvalidParam p then (f, some "values parameter must be an object")
  else
    let f1 := markAsTouched f
    let f2 := setValuesStep f1 p
    (setValidation f2, none)

/-- `Form.submit(e?)`: `this._preventSubmit(e); this._markAsDirty();
return new Form(this.values, this.fns, this.dirty, this.touched)`.
Returns the receiver's post-call state, the constructor's outcome for the
new instance, and the event's call counter after `_preventSubmit`. -/
def Form.submit {α : Type} (f : Form α) (e : Option Nat) :
    Form α × Except String (Form α) × Option Nat :=
  let e1 := preventSubmit e
  let f1 := markAsDirty f
  (f1, Form.build (JSParam.obj f1.values) (JSParam.obj f1.fns) f1.dirty f1.touched, e1)

/-- A `Form` whose `errors`/`invalid` agree with a fresh validation pass
over its current `values`/`fns` (the derived-field invariant of the spec). -/
def validationFresh {α : Type} (f : Form α) : Prop :=
  f.errors = (validate (Obj.keys f.values) f.values f.fns).errors ∧
  f.invalid = (validate (Obj.keys f.values) f.values f.fns).invalid

/-! ## The untyped `fns` argument

The `_isInvalidParam` check accepts any value that is not
null/undefined/array, including primitives.  A number or a boolean has
no own string-keyed properties, so every `fns[key]` read yields
`undefined` and validation proceeds harmlessly.  A string primitive,
however, has its characters as own properties at the decimal indices
(plus the non-enumerable `length`); such a property is a truthy
non-array, so `fns[key] ? fns[key]?.some((fn) => fn(value)) : false`
takes the truthy branch and `fns[key]?.some` — property access on a
non-nullish value that lacks `some` — is `undefined`, and calling it
throws a `TypeError`.  The following definitions model the validation
pass on such a raw accepted `fns` argument. -/

/-- An accepted (non-null/undefined/array) `fns` argument in its raw
runtime form: a genuine object of validator lists, a number-or-boolean
primitive, or a string primitive. -/
inductive RawFns (α : Type) : Type where
  | obj (o : Obj (List (α → Bool))) : RawFns α
  | numLike : RawFns α
  | str (s : String) : RawFns α

/-- What a property read `fns[key]` yields on a raw accepted `fns`
argument, as the ternary in `validate` observes it: `missing` for
`undefined` (and for other falsy values, which the ternary treats the
same way — both yield `false`); `list l` for a genuine validator array
(truthy even when empty, and `.some` works); `nonCallable` for any other
truthy value, on which `?.some` is not a function and the call throws. -/
inductive FnsProp (α : Type) : Type where
  | missing : FnsProp α
  | list (l : List (α → Bool)) : FnsProp α
  | nonCallable : FnsProp α

/-- The property read `fns[key]` on a raw `fns` argument: an object
yields its entry or `undefined`; a number/boolean has no own properties;
a string yields a (truthy, non-callable) one-character string at each
decimal index below its length, its (number) `length` — truthy unless
the string is empty — and `undefined` elsewhere. -/
def rawFnsAt {α : Type} : RawFns α → String → FnsProp α
  | RawFns.obj o, k =>
    match Obj.lookup o k with
    | some l => FnsProp.list l
    | none => FnsProp.missing
  | RawFns.numLike, _ => FnsProp.missing
  | RawFns.str s, k =>
    if k = "length" then
      if 0 < s.length then FnsProp.nonCallable else FnsProp.missing
    else if ((List.range s.length).map toString).contains k then FnsProp.nonCallable
    else FnsProp.missing

/-- The per-field computation of `validate` on a raw `fns` argument:
`const result = fns[key] ? fns[key]?.some((fn) => fn(value)) : false`,
throwing a `TypeError` when `fns[key]` is a truthy non-callable (the
exact host message is engine-specific; the modelled string only records
that the thrown error is a `TypeError`, not the `InvalidArgument` of the
parameter checks). -/
def fieldResultRaw {α : Type} (values : Obj α) (fns : RawFns α) (key : String) :
    Except String Bool :=
  match rawFnsAt fns key with
  | FnsProp.missing => Except.ok false
  | FnsProp.list l =>
    match Obj.lookup values key with
    | some value => Except.ok (l.any (fun fn => fn value))
    | none => Except.ok false
  | FnsProp.nonCallable =>
    Except.error "TypeError: fns[key]?.some is not a function"

/-- The reduce of `validate` over the keys, on a raw `fns` argument: each
field is evaluated in key order and the first `TypeError` aborts the
pass. -/
def validateRawErrors {α : Type} (values : Obj α) (fns : RawFns α) :
    List String → Obj Bool → Except String (Obj Bool)
  | [], acc => Except.ok acc
  | key :: rest, acc =>
    match fieldResultRaw values fns key with
    | Except.error e => Except.error e
    | Except.ok r => validateRawErrors values fns rest (Obj.set acc key r)

/-- `Form.validate` on a raw `fns` argument: the reduce, then
`invalid = keys.some((key) => errors[key])` (only reached when no field
threw). -/
def validateRaw {α : Type} (keys : List String) (values : Obj α) (fns : RawFns α) :
    Except String ValidationResult :=
  match validateRawErrors values fns keys [] with
  | Except.error e => Except.error e
  | Except.ok errors =>
    Except.ok
      { errors := errors
        invalid := keys.any (fun key => (Obj.lookup errors key).getD false) }

/-- The error, if any, that escapes the constructor when it is given an
accepted `values` object and a raw accepted `fns` argument: both
`_isInvalidParam` checks pass (none of these is null/undefined/array),
so the only possible throw is the `TypeError` from `_setValidation`'s
validation pass over `Object.keys(values)`. -/
def constructionThrow {α : Type} (values : Obj α) (fns : RawFns α) : Option String :=
  match validateRaw (Obj.keys values) values fns with
  | Except.error e => some e
  | Except.ok _ => none

/-! ## Concrete instances used to witness the claims -/

/-- A concrete form built from `{a: 1}` with no validators. -/
def wForm : Form Nat := initState [("a", 1)] [] false false

/-- Field names of the concrete validation examples. -/
def wKeys : List String := ["a", "b"]

/-- Concrete values `{a: 1, b: 2}`. -/
def wVals : Obj Nat := [("a", 1), ("b", 2)]

/-- A single validator list: flag the value `2` as an error. -/
def wTwo : List (Nat → Bool) := [fun v => v == 2]

/-- Validators registered for `b` only. -/
def wFns : Obj (List (Nat → Bool)) := [("b", wTwo)]

/-- Validators with a present-but-empty list for `a`. -/
def wFnsE : Obj (List (Nat → Bool)) := [("a", []), ("b", wTwo)]

/-- Counterexample values `{a: 0}`. -/
def cVals : Obj Nat := [("a", 0)]

/-- Counterexample validators: `a` errors exactly when its value is `1`. -/
def cFns : Obj (List (Nat → Bool)) := [("a", [fun v => v == 1])]

/-- Counterexample form: `{a: 0}` is valid at construction, and the merge
`next({a: 1})` makes the receiver's stored `errors` stale. -/
def cForm : Form Nat := initState cVals cFns false false

/-! ## Lemmas about the object model -/

theorem isInvalidParam_null {α : Type} :
    isInvalidParam (JSParam.null : JSParam α) = true := rfl

theorem isInvalidParam_undef {α : Type} :
    isInvalidParam (JSParam.undef : JSParam α) = true := rfl

theorem isInvalidParam_arr {α : Type} (l : List α) :
    isInvalidParam (JSParam.arr l) = true := rfl

theorem isInvalidParam_obj {α : Type} (o : Obj α) :
    isInvalidParam (JSParam.obj o) = false := rfl

theorem isInvalidParam_prim {α : Type} :
    isInvalidParam (JSParam.prim : JSParam α) = false := rfl

theorem Obj.keys_nil {α : Type} : Obj.keys ([] : Obj α) = [] := rfl

theorem Obj.keys_cons {α : Type} (q : String × α) (rest : Obj α) :
    Obj.keys (q :: rest) = q.1 :: Obj.keys rest := rfl

theorem Obj.lookup_cons {α : Type} (q : String × α) (rest : Obj α) (k : String) :
    Obj.lookup (q :: rest) k = if q.1 = k then some q.2 else Obj.lookup rest k := rfl

theorem oOr_none_left {α : Type} (b : Option α) : oOr none b = b := rfl

theorem oOr_some_left {α : Type} (v : α) (b : Option α) : oOr (some v) b = some v := rfl

theorem oOr_none_right {α : Type} (a : Option α) : oOr a none = a := by
  cases a <;> rfl

theorem oOr_assoc {α : Type} (a b c : Option α) :
    oOr (oOr a b) c = oOr a (oOr b c) := by
  cases a <;> rfl

theorem oOr_ite {α : Type} (P : Prop) [Decidable P] (x : α) (c : Option α) :
    oOr (if P then some x else none) c = if P then some x else c := by
  by_cases h : P <;> simp [h, oOr]

theorem Obj.lookupLast_cons {α : Type} (q : String × α) (rest : Obj α) (k : String) :
    Obj.lookupLast (q :: rest) k =
      oOr (Obj.lookupLast rest k) (if q.1 = k then some q.2 else none) := by
  cases h : Obj.lookupLast rest k <;> simp [Obj.lookupLast, h, oOr]

theorem Obj.spreadInto_nil_right {α : Type} (acc : Obj α) :
    Obj.spreadInto acc [] = acc := rfl

theorem Obj.spreadInto_cons {α : Type} (acc : Obj α) (q : String × α) (o : Obj α) :
    Obj.spreadInto acc (q :: o) = Obj.spreadInto (Obj.set acc q.1 q.2) o := rfl

theorem Obj.lookup_replace_of_mem {α : Type} (o : Obj α) (k : String) (v : α)
    (h : k ∈ Obj.keys o) :
    Obj.lookup (o.map (fun q => if q.1 = k then (k, v) else q)) k = some v := by
  induction o with
  | nil => simp [Obj.keys] at h
  | cons q rest ih =>
    by_cases hq : q.1 = k
    · simp [Obj.lookup, hq]
    · have h2 : k ∈ Obj.keys rest := by
        rcases List.mem_cons.mp h with h1 | h1
        · exact absurd h1.symm hq
        · exact h1
      simp [Obj.lookup, hq, ih h2]

theorem Obj.lookup_append_single_self {α : Type} (o : Obj α) (k : String) (v : α)
    (h : k ∉ Obj.keys o) :
    Obj.lookup (o ++ [(k, v)]) k = some v := by
  induction o with
  | nil => simp [Obj.lookup]
  | cons q rest ih =>
    have hq : ¬ q.1 = k := fun e => h (by simp [Obj.keys_cons, e])
    have h2 : k ∉ Obj.keys rest := fun e => h (by simp [Obj.keys_cons, e])
    simp [List.cons_append, Obj.lookup, hq, ih h2]

theorem Obj.lookup_set_self {α : Type} (o : Obj α) (k : String) (v : α) :
    Obj.lookup (Obj.set o k v) k = some v := by
  unfold Obj.set
  by_cases h : k ∈ Obj.keys o
  · simp only [if_pos h]
    exact Obj.lookup_replace_of_mem o k v h
  · simp only [if_neg h]
    exact Obj.lookup_append_single_self o k v h

theorem Obj.lookup_replace_ne {α : Type} (o : Obj α) (k : String) (v : α)
    (k2 : String) (h : k ≠ k2) :
    Obj.lookup (o.map (fun q => if q.1 = k then (k, v) else q)) k2 = Obj.lookup o k2 := by
  induction o with
  | nil => rfl
  | cons q rest ih =>
    by_cases hq : q.1 = k
    · simp [Obj.lookup, hq, h, ih]
    · simp [Obj.lookup, hq, ih]

theorem Obj.lookup_append_single_ne {α : Type} (o : Obj α) (k : String) (v : α)
    (k2 : String) (h : k ≠ k2) :
    Obj.lookup (o ++ [(k, v)]) k2 = Obj.lookup o k2 := by
  induction o with
  | nil => simp [Obj.lookup, h]
  | cons q rest ih => simp [List.cons_append, Obj.lookup, ih]

theorem Obj.lookup_set_ne {α : Type} (o : Obj α) (k : String) (v : α)
    (k2 : String) (h : k ≠ k2) :
    Obj.lookup (Obj.set o k v) k2 = Obj.lookup o k2 := by
  unfold Obj.set
  by_cases hm : k ∈ Obj.keys o
  · simp only [if_pos hm]
    exact Obj.lookup_replace_ne o k v k2 h
  · simp only [if_neg hm]
    exact Obj.lookup_append_single_ne o k v k2 h

theorem Obj.lookup_set {α : Type} (o : Obj α) (k : String) (v : α) (k2 : String) :
    Obj.lookup (Obj.set o k v) k2 =
      if k = k2 then some v else Obj.lookup o k2 := by
  by_cases h : k = k2
  · subst h
    simp [Obj.lookup_set_self]
  · simp [h, Obj.lookup_set_ne o k v k2 h]

theorem Obj.lookup_spreadInto {α : Type} (o : Obj α) :
    ∀ (acc : Obj α) (k : String),
      Obj.lookup (Obj.spreadInto acc o) k = oOr (Obj.lookupLast o k) (Obj.lookup acc k) := by
  induction o with
  | nil => intro acc k; rfl
  | cons q rest ih =>
    intro acc k
    rw [Obj.spreadInto_cons, ih, Obj.lookupLast_cons, oOr_assoc, oOr_ite,
      Obj.lookup_set]

theorem Obj.mem_keys_iff_lookup {α : Type} (o : Obj α) (k : String) :
    k ∈ Obj.keys o ↔ ∃ v, Obj.lookup o k = some v := by
  induction o with
  | nil => simp [Obj.keys, Obj.lookup]
  | cons q rest ih =>
    by_cases hq : q.1 = k
    · simp [Obj.keys_cons, Obj.lookup, hq]
    · have hk : ¬ k = q.1 := fun e => hq e.symm
      simp [Obj.keys_cons, Obj.lookup, hq, hk, ih]

theorem Obj.lookup_eq_none_of_not_mem {α : Type} (o : Obj α) (k : String)
    (h : k ∉ Obj.keys o) :
    Obj.lookup o k = none := by
  cases hl : Obj.lookup o k with
  | none => rfl
  | some v => exact absurd ((Obj.mem_keys_iff_lookup o k).mpr ⟨v, hl⟩) h

theorem Obj.replace_eq_self_of_not_mem {α : Type} (o : Obj α) (k : String) (v : α)
    (h : k ∉ Obj.keys o) :
    o.map (fun q => if q.1 = k then (k, v) else q) = o := by
  induction o with
  | nil => rfl
  | cons r rest ih =>
    have hr : ¬ r.1 = k := fun e => h (by simp [Obj.keys_cons, e])
    have h2 : k ∉ Obj.keys rest := fun e => h (by simp [Obj.keys_cons, e])
    simp [hr, ih h2]

theorem Obj.keys_set {α : Type} (o : Obj α) (k : String) (v : α) :
    Obj.keys (Obj.set o k v) =
      if k ∈ Obj.keys o then Obj.keys o else Obj.keys o ++ [k] := by
  unfold Obj.set
  by_cases h : k ∈ Obj.keys o
  · simp only [if_pos h]
    induction o with
    | nil => rfl
    | cons q rest ih =>
      by_cases hq : q.1 = k
      · by_cases hm : k ∈ Obj.keys rest
        · simp [Obj.keys_cons, hq, ih hm]
        · simp [Obj.keys_cons, hq, Obj.replace_eq_self_of_not_mem rest k v hm]
      · have h2 : k ∈ Obj.keys rest := by
          rcases List.mem_cons.mp h with h1 | h1
          · exact absurd h1.symm hq
          · exact h1
        simp [Obj.keys_cons, hq, ih h2]
  · simp only [if_neg h]
    simp [Obj.keys, List.map_append]

theorem Obj.nodup_keys_set {α : Type} (o : Obj α) (k : String) (v : α)
    (h : (Obj.keys o).Nodup) :
    (Obj.keys (Obj.set o k v)).Nodup := by
  rw [Obj.keys_set]
  by_cases hm : k ∈ Obj.keys o
  · simpa [hm] using h
  · simp [hm, List.nodup_append, h]

theorem Obj.nodup_keys_spreadInto {α : Type} (o : Obj α) :
    ∀ (acc : Obj α), (Obj.keys acc).Nodup → (Obj.keys (Obj.spreadInto acc o)).Nodup := by
  induction o with
  | nil => intro acc h; exact h
  | cons q rest ih =>
    intro acc h
    rw [Obj.spreadInto_cons]
    exact ih _ (Obj.nodup_keys_set acc q.1 q.2 h)

theorem Obj.set_eq_self {α : Type} (o : Obj α) (k : String) (v : α)
    (hnd : (Obj.keys o).Nodup) (hl : Obj.lookup o k = some v) :
    Obj.set o k v = o := by
  have hm : k ∈ Obj.keys o := (Obj.mem_keys_iff_lookup o k).mpr ⟨v, hl⟩
  unfold Obj.set
  rw [if_pos hm]
  induction o with
  | nil => rfl
  | cons q rest ih =>
    rw [Obj.keys_cons, List.nodup_cons] at hnd
    by_cases hq : q.1 = k
    · rw [Obj.lookup_cons, if_pos hq] at hl
      have hv : v = q.2 := (Option.some.injEq _ _).mp hl.symm
      have hrest : k ∉ Obj.keys rest := hq ▸ hnd.1
      subst hv
      have hhead : ((k : String), q.2) = q := by rw [← hq]
      rw [List.map_cons, Obj.replace_eq_self_of_not_mem rest k q.2 hrest,
        if_pos hq, hhead]
    · rw [Obj.lookup_cons, if_neg hq] at hl
      have hm2 : k ∈ Obj.keys rest := (Obj.mem_keys_iff_lookup rest k).mpr ⟨v, hl⟩
      simp [hq, ih hnd.2 hl hm2]

theorem Obj.spreadInto_self {α : Type} (o : Obj α) :
    ∀ (S : Obj α), (Obj.keys S).Nodup → (∀ q ∈ o, Obj.lookup S q.1 = some q.2) →
      Obj.spreadInto S o = S := by
  induction o with
  | nil => intro S _ _; rfl
  | cons q rest ih =>
    intro S hnd h
    rw [Obj.spreadInto_cons, Obj.set_eq_self S q.1 q.2 hnd (h q (List.mem_cons_self q rest))]
    exact ih S hnd (fun r hr => h r (List.mem_cons_of_mem q hr))

theorem Obj.spreadInto_append_of_disjoint {α : Type} (o : Obj α) :
    ∀ (acc : Obj α), (Obj.keys o).Nodup → (∀ k ∈ Obj.keys o, k ∉ Obj.keys acc) →
      Obj.spreadInto acc o = acc ++ o := by
  induction o with
  | nil => intro acc _ _; simp [Obj.spreadInto_nil_right]
  | cons q rest ih =>
    intro acc hnd hdisj
    rw [Obj.keys_cons, List.nodup_cons] at hnd
    have hq : q.1 ∉ Obj.keys acc := hdisj q.1 (by simp [Obj.keys_cons])
    have hset : Obj.set acc q.1 q.2 = acc ++ [q] := by
      unfold Obj.set
      rw [if_neg hq]
    rw [Obj.spreadInto_cons, hset,
      ih (acc ++ [q]) hnd.2 (fun k hk => by
        have h1 : k ∉ Obj.keys acc := hdisj k (by simp [Obj.keys_cons, hk])
        have h2 : ¬ k = q.1 := fun e => hnd.1 (e ▸ hk)
        have hkeys : Obj.keys (acc ++ [q]) = Obj.keys acc ++ [q.1] := by
          simp [Obj.keys, List.map_append]
        rw [hkeys]
        simp only [List.mem_append, List.mem_singleton]
        push_neg
        exact ⟨h1, h2⟩)]
    simp

theorem Obj.spreadInto_nil_left {α : Type} (o : Obj α)
    (hnd : (Obj.keys o).Nodup) :
    Obj.spreadInto [] o = o := by
  rw [Obj.spreadInto_append_of_disjoint o [] hnd (fun k _ => by simp [Obj.keys_nil])]
  simp

theorem Obj.lookupLast_eq_lookup_of_nodup {α : Type} (o : Obj α)
    (hnd : (Obj.keys o).Nodup) (k : String) :
    Obj.lookupLast o k = Obj.lookup o k := by
  induction o with
  | nil => rfl
  | cons q rest ih =>
    rw [Obj.keys_cons, List.nodup_cons] at hnd
    rw [Obj.lookupLast_cons, ih hnd.2, Obj.lookup_cons]
    by_cases hq : q.1 = k
    · have hrest : Obj.lookup rest k = none :=
        Obj.lookup_eq_none_of_not_mem rest k (hq ▸ hnd.1)
      simp [hq, hrest, oOr]
    · simp [hq, oOr_none_right]

theorem Obj.lookup_of_mem_nodup {α : Type} (o : Obj α)
    (hnd : (Obj.keys o).Nodup) (k : String) (v : α) (h : (k, v) ∈ o) :
    Obj.lookup o k = some v := by
  induction o with
  | nil => exact absurd h (List.not_mem_nil _)
  | cons q rest ih =>
    rw [Obj.keys_cons, List.nodup_cons] at hnd
    rcases List.mem_cons.mp h with h1 | h1
    · rw [← h1, Obj.lookup_cons]
      simp
    · have hk : k ∈ Obj.keys rest := by
        rw [Obj.mem_keys_iff_lookup]
        exact ⟨v, ih hnd.2 h1⟩
      have hq : ¬ q.1 = k := fun e => hnd.1 (e ▸ hk)
      rw [Obj.lookup_cons, if_neg hq]
      exact ih hnd.2 h1

/-- The `errors` object that `validate` folds up maps a key `k` to the
per-field result exactly when `k` occurs among the given keys. -/
theorem Obj.lookup_foldl_set {β : Type} (r : String → β) :
    ∀ (ks : List String) (acc : Obj β) (k : String),
      Obj.lookup (ks.foldl (fun a key => Obj.set a key (r key)) acc) k =
        if k ∈ ks then some (r k) else Obj.lookup acc k := by
  intro ks
  induction ks with
  | nil => intro acc k; simp
  | cons key rest ih =>
    intro acc k
    rw [List.foldl_cons, ih]
    by_cases hr : k ∈ rest
    · simp [hr, List.mem_cons]
    · by_cases hk : key = k
      · subst hk
        simp [hr, Obj.lookup_set_self]
      · have : ¬ k ∈ key :: rest := by
          rw [List.mem_cons]
          push_neg
          exact ⟨fun e => hk e.symm, hr⟩
        simp [hr, this, Obj.lookup_set_ne acc key (r key) k hk]

theorem validate_errors_lookup {α : Type} (keys : List String) (values : Obj α)
    (fns : Obj (List (α → Bool))) (k : String) :
    Obj.lookup (validate keys values fns).errors k =
      if k ∈ keys then some (fieldResult values fns k) else none := by
  unfold validate
  exact Obj.lookup_foldl_set (fieldResult values fns) keys [] k

theorem validate_invalid_iff {α : Type} (keys : List String) (values : Obj α)
    (fns : Obj (List (α → Bool))) :
    (validate keys values fns).invalid = true ↔
      ∃ k ∈ keys, Obj.lookup (validate keys values fns).errors k = some true := by
  have herr : ∀ k, Obj.lookup (validate keys values fns).errors k =
      if k ∈ keys then some (fieldResult values fns k) else none :=
    fun k => validate_errors_lookup keys values fns k
  have hinv : (validate keys values fns).invalid =
      keys.any (fun key => (Obj.lookup (validate keys values fns).errors key).getD false) := rfl
  rw [hinv, List.any_eq_true]
  constructor
  · rintro ⟨k, hk, hgd⟩
    refine ⟨k, hk, ?_⟩
    rw [herr k, if_pos hk] at hgd ⊢
    simp at hgd
    rw [hgd]
  · rintro ⟨k, hk, hsome⟩
    refine ⟨k, hk, ?_⟩
    rw [hsome]
    rfl

/-! ## The claims -/

/-- C5 is false as stated for an explicitly-`undefined` `fns`: the
default parameter `fns = {}` replaces `undefined` before the
`_isInvalidParam` check runs, so `Form({a: 1}, undefined)` succeeds with
no validators instead of throwing
`"fns parameter must be an object"`. -/
theorem construction_with_undefined_fns_succeeds :
    Form.build (JSParam.obj ([("a", 1)] : Obj Nat)) JSParam.undef false false =
      Except.ok (initState [("a", 1)] [] false false) := rfl

/-- C5 (amended): construction fails with the exact message
`"values parameter must be an object"` when the `values` argument
(which has no default) is null, undefined, or an array, and —
independently, when `values` itself passes the check — with the exact
message `"fns parameter must be an object"` when the `fns` argument is
null or an array.  An explicitly-undefined `fns` is replaced by the
default `{}` before the check, exactly as if `{}` had been passed, and
construction succeeds.  `Except.error` means no `Form` state is
produced. -/
theorem construction_error_messages {α : Type}
    (vp : JSParam α) (fp : JSParam (List (α → Bool))) (d t : Bool) :
    ((vp = JSParam.null ∨ vp = JSParam.undef ∨ ∃ l, vp = JSParam.arr l) →
      Form.build vp fp d t = Except.error "values parameter must be an object") ∧
    (isInvalidParam vp = false →
      (fp = JSParam.null ∨ ∃ l, fp = JSParam.arr l) →
      Form.build vp fp d t = Except.error "fns parameter must be an object") ∧
    (Form.build vp JSParam.undef d t = Form.build vp (JSParam.obj []) d t) := by
  refine ⟨?_, ?_, rfl⟩
  · intro h
    have hv : isInvalidParam vp = true := by
      rcases h with h | h | ⟨l, h⟩ <;> subst h <;> rfl
    simp [Form.build, hv]
  · intro hv h
    rcases h with h | ⟨l, h⟩ <;> subst h <;>
      simp [Form.build, hv, isInvalidParam_null, isInvalidParam_arr]

theorem construction_error_messages_witness :
    Form.build (JSParam.null : JSParam Nat) (JSParam.obj []) false false =
      Except.error "values parameter must be an object" ∧
    Form.build (JSParam.obj ([] : Obj Nat)) JSParam.null false false =
      Except.error "fns parameter must be an object" :=
  ⟨(construction_error_messages JSParam.null (JSParam.obj []) false false).1
      (Or.inl rfl),
   (construction_error_messages (JSParam.obj []) JSParam.null false false).2.1
      rfl (Or.inl rfl)⟩

/-- A per-field raw result is a normal (non-throwing) value whenever the
property read does not yield a truthy non-callable. -/
theorem fieldResultRaw_ok_of_not_nonCallable {α : Type} (values : Obj α)
    (fns : RawFns α) (key : String)
    (h : rawFnsAt fns key ≠ FnsProp.nonCallable) :
    ∃ r, fieldResultRaw values fns key = Except.ok r := by
  cases hr : rawFnsAt fns key with
  | missing => exact ⟨false, by simp [fieldResultRaw, hr]⟩
  | list l =>
    cases hv : Obj.lookup values key with
    | none => exact ⟨false, by simp [fieldResultRaw, hr, hv]⟩
    | some v => exact ⟨l.any (fun fn => fn v), by simp [fieldResultRaw, hr, hv]⟩
  | nonCallable => exact absurd hr h

/-- A genuine validator-map object never exposes a truthy non-callable. -/
theorem rawFnsAt_obj_ne_nonCallable {α : Type} (o : Obj (List (α → Bool)))
    (k : String) :
    rawFnsAt (RawFns.obj o) k ≠ FnsProp.nonCallable := by
  cases ho : Obj.lookup o k <;> simp [rawFnsAt, ho]

/-- A number/boolean primitive has no own properties at all. -/
theorem rawFnsAt_numLike {α : Type} (k : String) :
    rawFnsAt (RawFns.numLike : RawFns α) k = FnsProp.missing := rfl

/-- The raw reduce completes without throwing whenever no property read
on the `fns` argument yields a truthy non-callable. -/
theorem validateRawErrors_ok {α : Type} (values : Obj α) (fns : RawFns α)
    (h : ∀ k, rawFnsAt fns k ≠ FnsProp.nonCallable) :
    ∀ (ks : List String) (acc : Obj Bool),
      ∃ e, validateRawErrors values fns ks acc = Except.ok e := by
  intro ks
  induction ks with
  | nil => intro acc; exact ⟨acc, rfl⟩
  | cons key rest ih =>
    intro acc
    rcases fieldResultRaw_ok_of_not_nonCallable values fns key (h key) with ⟨r, hr⟩
    rcases ih (Obj.set acc key r) with ⟨e, he⟩
    exact ⟨e, by simp [validateRawErrors, hr, he]⟩

/-- On a genuine validator-map object the raw model agrees with the
typed per-field computation. -/
theorem fieldResultRaw_agrees_on_obj {α : Type} (values : Obj α)
    (o : Obj (List (α → Bool))) (k : String) :
    fieldResultRaw values (RawFns.obj o) k = Except.ok (fieldResult values o k) := by
  cases ho : Obj.lookup o k with
  | none => simp [fieldResultRaw, fieldResult, rawFnsAt, ho]
  | some l =>
    cases hv : Obj.lookup values k <;>
      simp [fieldResultRaw, fieldResult, rawFnsAt, ho, hv]

/-- Construction never throws on a genuine validator-map `fns` object. -/
theorem constructionThrow_obj {α : Type} (values : Obj α)
    (o : Obj (List (α → Bool))) :
    constructionThrow values (RawFns.obj o) = none := by
  rcases validateRawErrors_ok values (RawFns.obj o) (rawFnsAt_obj_ne_nonCallable o)
    (Obj.keys values) [] with ⟨e, he⟩
  simp [constructionThrow, validateRaw, he]

/-- Construction never throws on a number/boolean-primitive `fns`. -/
theorem constructionThrow_numLike {α : Type} (values : Obj α) :
    constructionThrow values (RawFns.numLike : RawFns α) = none := by
  rcases validateRawErrors_ok values (RawFns.numLike : RawFns α)
    (fun k => by rw [rawFnsAt_numLike]; exact fun he => FnsProp.noConfusion he)
    (Obj.keys values) [] with ⟨e, he⟩
  simp [constructionThrow, validateRaw, he]

/-- C8 is false as stated for a string-primitive `fns`: a string passes
the `_isInvalidParam` check, but its index properties are truthy
non-callables, so `Form({"0": 1}, "z")` reaches the validation pass and
throws a `TypeError` at the field `"0"` — construction does NOT succeed
for every accepted non-mapping primitive. -/
theorem string_fns_construction_throws :
    constructionThrow [("0", (1 : Nat))] (RawFns.str "z") =
      some "TypeError: fns[key]?.some is not a function" := rfl

/-- C8 (amended): the argument check rejects exactly null, undefined,
and arrays, and every other runtime value is accepted by the check; for
an accepted argument that is an object or a primitive without own
enumerable properties (a number or a boolean), construction succeeds in
both the `values` and `fns` positions and `set` succeeds, even though
such an argument is not a field-keyed mapping.  (A string primitive is
also accepted by the check, but in the `fns` position it does not always
succeed: when one of its index properties collides with a key of
`values`, the validation pass throws a `TypeError` — the
counterexample.) -/
theorem accepted_params_mostly_succeed {α : Type}
    (vp : JSParam α) (fp : JSParam (List (α → Bool))) (d t : Bool)
    (f : Form α) (p : JSParam α) (values : Obj α) (o : Obj (List (α → Bool))) :
    (isInvalidParam vp = true ↔
      (vp = JSParam.null ∨ vp = JSParam.undef ∨ ∃ l, vp = JSParam.arr l)) ∧
    (isInvalidParam vp = false → isInvalidParam fp = false →
      ∃ s, Form.build vp fp d t = Except.ok s) ∧
    (isInvalidParam p = false → ∃ s, f.set p = (s, none)) ∧
    (constructionThrow values (RawFns.obj o) = none) ∧
    (constructionThrow values (RawFns.numLike : RawFns α) = none) := by
  refine ⟨?_, ?_, ?_, constructionThrow_obj values o, constructionThrow_numLike values⟩
  · cases vp <;> simp [isInvalidParam]
  · intro hv hf
    cases fp with
    | null => exact absurd hf (by simp [isInvalidParam_null])
    | undef => exact absurd hf (by simp [isInvalidParam_undef])
    | arr l => exact absurd hf (by simp [isInvalidParam_arr])
    | obj fo =>
      refine ⟨initState (JSParam.props vp) fo d t, ?_⟩
      simp [Form.build, hv, isInvalidParam_obj, JSParam.props]
    | prim =>
      refine ⟨initState (JSParam.props vp) [] d t, ?_⟩
      simp [Form.build, hv, isInvalidParam_prim, JSParam.props]
  · intro hp
    refine ⟨setValidation (setValuesStep (markAsTouched f) p), ?_⟩
    simp [Form.set, hp]

theorem accepted_params_mostly_succeed_witness :
    (∃ s, Form.build (JSParam.prim : JSParam Nat) JSParam.prim false false =
      Except.ok s) ∧
    (∃ s, wForm.set JSParam.prim = (s, none)) ∧
    constructionThrow ([("a", 1)] : Obj Nat) (RawFns.obj []) = none := by
  have h := accepted_params_mostly_succeed (JSParam.prim : JSParam Nat) JSParam.prim
    false false wForm JSParam.prim ([("a", 1)] : Obj Nat) []
  exact ⟨h.2.1 rfl rfl, h.2.2.1 rfl, h.2.2.2.1⟩

/-- C9: `set` is atomic on failure — the argument check comes before the
touched flip, the merge, and the re-validation, so on an invalid partial
the call throws `"values parameter must be an object"` and the receiver
is returned completely unchanged (`values`, `errors`, `invalid`, `dirty`,
`touched` all keep their pre-call state). -/
theorem set_throws_before_any_mutation {α : Type} (f : Form α) (p : JSParam α)
    (h : isInvalidParam p = true) :
    f.set p = (f, some "values parameter must be an object") := by
  simp [Form.set, h]

theorem set_throws_before_any_mutation_witness :
    wForm.set JSParam.null = (wForm, some "values parameter must be an object") :=
  set_throws_before_any_mutation wForm JSParam.null rfl

/-- C1 is refuted by the code: `Form.next` contains no `_isInvalidParam`
check, so it never throws.  For every form and every argument — including
null, undefined, and arrays — the spread inside `_setValues` succeeds
(spreading null/undefined contributes nothing) and the constructor call
inside `next` receives the receiver's `values`/`fns`, which are genuine
objects, so it returns a new instance normally. -/
theorem next_never_throws {α : Type} (f : Form α) (p : JSParam α) :
    ∃ s, (f.next p).2 = Except.ok s :=
  ⟨_, rfl⟩

/-- C7: `submit()` with no event does not throw and returns a new instance
with `dirty = true`; `submit(event)` bumps the event's `preventDefault`
counter by exactly one; the returned instance carries the receiver's
current `values`, `fns`, and `touched` unchanged; and concretely,
`create({}).submit()` differs from `create({})` only in `dirty`
(true vs false) while `errors`, `fns`, `invalid`, `touched`, `values`
remain equal. -/
theorem submit_correct {α : Type} (f : Form α) (c : Nat) :
    (∃ s, (f.submit none).2.1 = Except.ok s ∧ s.dirty = true) ∧
    ((f.submit none).2.2 = none) ∧
    ((f.submit (some c)).2.2 = some (c + 1)) ∧
    (∃ s, (f.submit (some c)).2.1 = Except.ok s ∧ s.dirty = true ∧
      s.values = f.values ∧ s.fns = f.fns ∧ s.touched = f.touched) ∧
    (∃ s0 s1, Form.build (JSParam.obj ([] : Obj Nat)) (JSParam.obj []) false false =
        Except.ok s0 ∧
      (s0.submit none).2.1 = Except.ok s1 ∧
      s0.dirty = false ∧ s1.dirty = true ∧
      s1.errors = s0.errors ∧ s1.fns = s0.fns ∧ s1.invalid = s0.invalid ∧
      s1.touched = s0.touched ∧ s1.values = s0.values) :=
  ⟨⟨_, rfl, rfl⟩, rfl, rfl, ⟨_, rfl, rfl, rfl, rfl, rfl⟩,
   ⟨_, _, rfl, rfl, rfl, rfl, rfl, rfl, rfl, rfl, rfl⟩⟩

/-- C4: `validate` returns an `errors` mapping whose key set is exactly
the given field-name set; a field with no registered validators gets
`false`; a field with validator list `l` and current value `v` gets a
truthy error iff some validator in `l` returns truthy on `v`; and
`invalid` is true iff at least one field's error value is truthy.
(`validate` is a pure function in the embedding, as in the source:
it builds a fresh `errors` object and reads but never writes
`values`/`fns`.) -/
theorem validate_correct {α : Type} (keys : List String) (values : Obj α)
    (fns : Obj (List (α → Bool))) (k : String) (l : List (α → Bool)) (v : α) :
    (k ∈ Obj.keys (validate keys values fns).errors ↔ k ∈ keys) ∧
    (k ∈ keys → Obj.lookup fns k = none →
      Obj.lookup (validate keys values fns).errors k = some false) ∧
    (k ∈ keys → Obj.lookup fns k = some l → Obj.lookup values k = some v →
      (Obj.lookup (validate keys values fns).errors k = some true ↔
        ∃ fn ∈ l, fn v = true)) ∧
    ((validate keys values fns).invalid = true ↔
      ∃ k2 ∈ keys, Obj.lookup (validate keys values fns).errors k2 = some true) := by
  refine ⟨?_, ?_, ?_, validate_invalid_iff keys values fns⟩
  · rw [Obj.mem_keys_iff_lookup]
    constructor
    · rintro ⟨w, hw⟩
      rw [validate_errors_lookup] at hw
      by_cases hk : k ∈ keys
      · exact hk
      · rw [if_neg hk] at hw
        exact Option.noConfusion hw
    · intro hk
      exact ⟨_, by rw [validate_errors_lookup, if_pos hk]⟩
  · intro hk hf
    rw [validate_errors_lookup, if_pos hk]
    simp [fieldResult, hf]
  · intro hk hf hv
    rw [validate_errors_lookup, if_pos hk]
    simp [fieldResult, hf, hv, List.any_eq_true]

theorem validate_correct_witness :
    ("a" ∈ Obj.keys (validate wKeys wVals wFns).errors ↔ "a" ∈ wKeys) ∧
    Obj.lookup (validate wKeys wVals wFns).errors "a" = some false ∧
    (Obj.lookup (validate wKeys wVals wFns).errors "b" = some true ↔
      ∃ fn ∈ wTwo, fn 2 = true) ∧
    ((validate wKeys wVals wFns).invalid = true ↔
      ∃ k2 ∈ wKeys, Obj.lookup (validate wKeys wVals wFns).errors k2 = some true) :=
  ⟨(validate_correct wKeys wVals wFns "a" [] 0).1,
   (validate_correct wKeys wVals wFns "a" [] 0).2.1 (by simp [wKeys]) rfl,
   (validate_correct wKeys wVals wFns "b" wTwo 2).2.2.1 (by simp [wKeys]) rfl rfl,
   (validate_correct wKeys wVals wFns "a" [] 0).2.2.2⟩

/-- C10: a field whose `fns` entry is present but an empty list gets the
error value `false` from `validate` (in JavaScript an empty array is
truthy, so the `some`-branch is taken and `[].some` is `false` — the same
result as an absent entry), and such a field never contributes to
`invalid`: whenever `invalid` is true, some other field has a truthy
error. -/
theorem empty_validator_list_gives_false {α : Type} (keys : List String)
    (values : Obj α) (fns : Obj (List (α → Bool))) (k : String)
    (h : Obj.lookup fns k = some []) :
    (k ∈ keys → Obj.lookup (validate keys values fns).errors k = some false) ∧
    ((validate keys values fns).invalid = true →
      ∃ k2 ∈ keys, ¬ k2 = k ∧
        Obj.lookup (validate keys values fns).errors k2 = some true) := by
  have herr : k ∈ keys → Obj.lookup (validate keys values fns).errors k = some false := by
    intro hk
    rw [validate_errors_lookup, if_pos hk]
    have hres : fieldResult values fns k = false := by
      unfold fieldResult
      rw [h]
      cases Obj.lookup values k <;> simp
    rw [hres]
  refine ⟨herr, ?_⟩
  intro hinv
  rcases (validate_invalid_iff keys values fns).mp hinv with ⟨k2, hk2, htrue⟩
  refine ⟨k2, hk2, ?_, htrue⟩
  intro he
  subst he
  rw [herr hk2] at htrue
  simp at htrue

theorem empty_validator_list_gives_false_witness :
    Obj.lookup (validate wKeys wVals wFnsE).errors "a" = some false ∧
    (∃ k2 ∈ wKeys, ¬ k2 = "a" ∧
      Obj.lookup (validate wKeys wVals wFnsE).errors k2 = some true) :=
  ⟨(empty_validator_list_gives_false wKeys wVals wFnsE "a" rfl).1 (by simp [wKeys]),
   (empty_validator_list_gives_false wKeys wVals wFnsE "a" rfl).2 rfl⟩

/-- C3: for a valid partial `p`, `next` marks the receiver touched,
replaces the receiver's `values` with the shallow merge of `p` over the
old values via the same merge helper `set` uses (so the two agree on the
merged values), leaves the receiver's `dirty` alone, and returns a new
`Form` whose values are the merged mapping, whose `fns` are the
receiver's, whose `dirty` equals the receiver's, whose `touched` is true,
and whose `errors`/`invalid` come from a fresh validation pass at
construction. -/
theorem next_effect_and_result {α : Type} (f : Form α) (p : JSParam α)
    (hp : isInvalidParam p = false) :
    ((f.next p).1.touched = true) ∧
    ((f.next p).1.values = jsSpread f.values (JSParam.props p)) ∧
    ((f.next p).1.values = (f.set p).1.values) ∧
    ((f.next p).1.dirty = f.dirty) ∧
    (∃ s, (f.next p).2 = Except.ok s ∧
      s.values = jsSpread f.values (JSParam.props p) ∧
      s.fns = f.fns ∧
      s.dirty = f.dirty ∧
      s.touched = true ∧
      s.errors = (validate (Obj.keys (jsSpread f.values (JSParam.props p)))
        (jsSpread f.values (JSParam.props p)) f.fns).errors ∧
      s.invalid = (validate (Obj.keys (jsSpread f.values (JSParam.props p)))
        (jsSpread f.values (JSParam.props p)) f.fns).invalid) := by
  refine ⟨rfl, rfl, ?_, rfl, ⟨_, rfl, rfl, rfl, rfl, rfl, rfl, rfl⟩⟩
  simp [Form.next, Form.set, hp, setValuesStep, markAsTouched, setValidation]

theorem next_effect_and_result_witness :
    ((wForm.next (JSParam.obj [("a", 5), ("b", 7)])).1.touched = true) ∧
    ((wForm.next (JSParam.obj [("a", 5), ("b", 7)])).1.values =
      jsSpread wForm.values (JSParam.props (JSParam.obj [("a", 5), ("b", 7)]))) :=
  ⟨(next_effect_and_result wForm (JSParam.obj [("a", 5), ("b", 7)]) rfl).1,
   (next_effect_and_result wForm (JSParam.obj [("a", 5), ("b", 7)]) rfl).2.1⟩

/-- C6: for a valid partial `p` (a JavaScript object's keys are pairwise
distinct, hence the `Nodup` hypotheses), after `set p` the receiver's
values equal the shallow merge `{...oldValues, ...p}` — a field present
in `p` takes `p`'s value, a field absent from `p` keeps its old value —
and `touched` is true regardless of whether any value differed;
`next(p)`'s returned values equal the same merge; and applying the same
partial twice via `set` leaves `values` unchanged after the first
application (idempotence). -/
theorem set_merge_laws {α : Type} (f : Form α) (p : JSParam α) (k : String) (v : α)
    (hp : isInvalidParam p = false)
    (hvals : (Obj.keys f.values).Nodup)
    (hprops : (Obj.keys (JSParam.props p)).Nodup) :
    ((f.set p).1.touched = true) ∧
    ((f.set p).2 = none) ∧
    ((f.set p).1.values = jsSpread f.values (JSParam.props p)) ∧
    (Obj.lookup (JSParam.props p) k = none →
      Obj.lookup (f.set p).1.values k = Obj.lookup f.values k) ∧
    (Obj.lookup (JSParam.props p) k = some v →
      Obj.lookup (f.set p).1.values k = some v) ∧
    (∃ s, (f.next p).2 = Except.ok s ∧
      s.values = jsSpread f.values (JSParam.props p)) ∧
    (((f.set p).1.set p).1.values = (f.set p).1.values) := by
  have hgen : ∀ g : Form α,
      (Form.set g p).1.values = jsSpread g.values (JSParam.props p) := by
    intro g
    simp [Form.set, hp, setValuesStep, markAsTouched, setValidation]
  have hll : ∀ k2, Obj.lookupLast (JSParam.props p) k2 =
      Obj.lookup (JSParam.props p) k2 :=
    fun k2 => Obj.lookupLast_eq_lookup_of_nodup _ hprops k2
  have hspread : ∀ k2, Obj.lookup (jsSpread f.values (JSParam.props p)) k2 =
      oOr (Obj.lookupLast (JSParam.props p) k2) (Obj.lookup f.values k2) := by
    intro k2
    unfold jsSpread
    rw [Obj.lookup_spreadInto, Obj.spreadInto_nil_left f.values hvals]
  refine ⟨by simp [Form.set, hp, setValuesStep, markAsTouched, setValidation],
    by simp [Form.set, hp], hgen f, ?_, ?_, ⟨_, rfl, rfl⟩, ?_⟩
  · intro habs
    rw [hgen f, hspread k, hll k, habs]
    rfl
  · intro hpres
    rw [hgen f, hspread k, hll k, hpres]
    rfl
  · have h1 : jsSpread f.values (JSParam.props p) =
        Obj.spreadInto f.values (JSParam.props p) := by
      unfold jsSpread
      rw [Obj.spreadInto_nil_left f.values hvals]
    have hndS : (Obj.keys (Obj.spreadInto f.values (JSParam.props p))).Nodup :=
      Obj.nodup_keys_spreadInto _ _ hvals
    have h2 : jsSpread (Obj.spreadInto f.values (JSParam.props p)) (JSParam.props p) =
        Obj.spreadInto (Obj.spreadInto f.values (JSParam.props p)) (JSParam.props p) := by
      unfold jsSpread
      rw [Obj.spreadInto_nil_left _ hndS]
    rw [hgen ((f.set p).1), hgen f, h1, h2]
    exact Obj.spreadInto_self _ _ hndS (fun r hr => by
      rw [Obj.lookup_spreadInto, Obj.lookupLast_eq_lookup_of_nodup _ hprops,
        Obj.lookup_of_mem_nodup _ hprops r.1 r.2 hr]
      rfl)

theorem set_merge_laws_witness :
    ((wForm.set (JSParam.obj [("a", 5), ("b", 7)])).1.touched = true) ∧
    (Obj.lookup (wForm.set (JSParam.obj [("a", 5), ("b", 7)])).1.values "b" =
      some 7) ∧
    (((wForm.set (JSParam.obj [("a", 5), ("b", 7)])).1.set
        (JSParam.obj [("a", 5), ("b", 7)])).1.values =
      (wForm.set (JSParam.obj [("a", 5), ("b", 7)])).1.values) := by
  have h := set_merge_laws wForm (JSParam.obj [("a", 5), ("b", 7)]) "b" 7 rfl
    (by decide) (by decide)
  exact ⟨h.1, h.2.2.2.2.1 rfl, h.2.2.2.2.2.2⟩

/-- C2 is false as stated: after `next` has merged the partial into the
receiver's values, the receiver's `errors` mapping is NOT the one
recomputed from its current values and fns — `next` mutates the
receiver's `values` but never re-runs `_setValidation` on the receiver.
Concretely, for the form built from `{a: 0}` with the validator
`a ↦ (a == 1)`, after `next({a: 1})` the receiver's stored `errors` is
`{a: false}` while recomputing from its merged values gives `{a: true}`. -/
theorem next_receiver_errors_stale :
    (cForm.next (JSParam.obj [("a", 1)])).1.errors ≠
      (validate (Obj.keys (cForm.next (JSParam.obj [("a", 1)])).1.values)
        ((cForm.next (JSParam.obj [("a", 1)])).1.values)
        ((cForm.next (JSParam.obj [("a", 1)])).1.fns)).errors := by
  intro h
  have hL : (cForm.next (JSParam.obj [("a", 1)])).1.errors = [("a", false)] := rfl
  have hR : (validate (Obj.keys (cForm.next (JSParam.obj [("a", 1)])).1.values)
      ((cForm.next (JSParam.obj [("a", 1)])).1.values)
      ((cForm.next (JSParam.obj [("a", 1)])).1.fns)).errors = [("a", true)] := rfl
  rw [hL, hR] at h
  simp at h

/-- C2 (amended): `errors`/`invalid` are freshly recomputed from the
current `values`/`fns` for every instance produced by construction, by a
successful `set`, and for the new instances returned by `next` and
`submit`; but the receiver of `next` is NOT re-validated: its `errors`
and `invalid` keep their pre-call values (stale relative to the merged
values).  For any instance with fresh validation, `invalid` equals the
OR-reduction of the `errors` mapping. -/
theorem validation_freshness_amended {α : Type} (f : Form α)
    (vp : JSParam α) (fp : JSParam (List (α → Bool))) (d t : Bool)
    (p : JSParam α) (e : Option Nat) (g : Form α) :
    (∀ s, Form.build vp fp d t = Except.ok s → validationFresh s) ∧
    (∀ s, f.set p = (s, none) → validationFresh s) ∧
    (∀ s, (f.next p).2 = Except.ok s → validationFresh s) ∧
    (∀ s, (f.submit e).2.1 = Except.ok s → validationFresh s) ∧
    ((f.next p).1.errors = f.errors ∧ (f.next p).1.invalid = f.invalid) ∧
    (validationFresh g →
      (g.invalid = true ↔ ∃ k, Obj.lookup g.errors k = some true)) := by
  refine ⟨?_, ?_, ?_, ?_, ⟨rfl, rfl⟩, ?_⟩
  · intro s hs
    by_cases h1 : isInvalidParam vp
    · simp [Form.build, h1] at hs
    · cases fp with
      | null => simp [Form.build, h1, isInvalidParam_null] at hs
      | undef =>
        simp [Form.build, h1, isInvalidParam_obj] at hs
        rw [← hs]
        exact ⟨rfl, rfl⟩
      | arr l => simp [Form.build, h1, isInvalidParam_arr] at hs
      | obj fo =>
        simp [Form.build, h1, isInvalidParam_obj] at hs
        rw [← hs]
        exact ⟨rfl, rfl⟩
      | prim =>
        simp [Form.build, h1, isInvalidParam_prim] at hs
        rw [← hs]
        exact ⟨rfl, rfl⟩
  · intro s hs
    by_cases h1 : isInvalidParam p
    · simp [Form.set, h1] at hs
    · simp [Form.set, h1] at hs
      rw [← hs]
      exact ⟨rfl, rfl⟩
  · intro s hs
    have heq : (f.next p).2 = Except.ok (initState
        (setValuesStep (markAsTouched f) p).values
        (setValuesStep (markAsTouched f) p).fns
        (setValuesStep (markAsTouched f) p).dirty
        (setValuesStep (markAsTouched f) p).touched) := rfl
    rw [heq] at hs
    injection hs with hs2
    rw [← hs2]
    exact ⟨rfl, rfl⟩
  · intro s hs
    have heq : (f.submit e).2.1 = Except.ok (initState
        (markAsDirty f).values (markAsDirty f).fns
        (markAsDirty f).dirty (markAsDirty f).touched) := rfl
    rw [heq] at hs
    injection hs with hs2
    rw [← hs2]
    exact ⟨rfl, rfl⟩
  · rintro ⟨he, hi⟩
    rw [hi, he]
    constructor
    · intro h
      rcases (validate_invalid_iff _ _ _).mp h with ⟨k, _, hk⟩
      exact ⟨k, hk⟩
    · rintro ⟨k, hk⟩
      apply (validate_invalid_iff _ _ _).mpr
      refine ⟨k, ?_, hk⟩
      by_contra hmem
      rw [validate_errors_lookup, if_neg hmem] at hk
      exact Option.noConfusion hk

theorem validation_freshness_amended_witness :
    validationFresh (initState ([("a", 1)] : Obj Nat) cFns false false) ∧
    ((cForm.next (JSParam.obj [("a", 1)])).1.errors = cForm.errors) := by
  have h := validation_freshness_amended cForm (JSParam.obj ([("a", 1)] : Obj Nat))
    (JSParam.obj cFns) false false (JSParam.obj [("a", 1)]) none cForm
  exact ⟨h.1 (initState ([("a", 1)] : Obj Nat) cFns false false) rfl, h.2.2.2.2.1.1⟩

end IoForm
